import Mathlib

/-!
Verification of the Finance-Dashboard program (`src/main.py`).

The development is a shallow embedding of the program's core:

* `Transaction` / `Account` classes, the JSON ledger store (`database.json`),
  and the `ExchangeRate` lookup from `src/main.py`.
* Python numbers (`int | float`) are modelled as rationals (`ℚ`).
* Python's `str.lower` / `str.upper` are modelled on the ASCII range
  (`pyLower` / `pyUpper`); the program only applies them to account names,
  descriptions and 3-letter currency codes.
* `datetime.date` is modelled by `Date` together with the validity predicate
  enforced by the Python `datetime` library (years 1..9999, real Gregorian
  calendar days); `str(date)` is `dateToIso` and `datetime.date.fromisoformat`
  is `dateFromIso` (strict `YYYY-MM-DD` parsing plus calendar validation).
* The persisted file is modelled by `FileState`: missing
  (`FileNotFoundError` on read), malformed (`json.JSONDecodeError` on read),
  or a parsed JSON object, modelled as an insertion-ordered association list
  from account name to stored record, with Python-dict assignment semantics
  (`insertStore`: update in place if present, append if new).
* The network is modelled by `NetResult`: either a successful response whose
  `rates` field is a code-to-rate mapping, or a `requests.RequestException`.
* The `ValueError` raised by `Account.__init__` for an unknown currency, and
  the `ValueError` that `datetime.date.fromisoformat` raises on a malformed
  stored date string, are modelled by `InitError`.
-/

set_option autoImplicit false

namespace Finance

/-- ASCII lowercasing of one character, modelling Python `str.lower` on the
ASCII range (codes 65-90 map to 97-122, everything else is unchanged). -/
def lowerChar (c : Char) : Char :=
  if 65 ≤ c.toNat ∧ c.toNat ≤ 90 then Char.ofNat (c.toNat + 32) else c

/-- ASCII uppercasing of one character, modelling Python `str.upper` on the
ASCII range. -/
def upperChar (c : Char) : Char :=
  if 97 ≤ c.toNat ∧ c.toNat ≤ 122 then Char.ofNat (c.toNat - 32) else c

/-- Python `str.lower`, on ASCII strings. -/
def pyLower (s : String) : String := String.mk (s.data.map lowerChar)

/-- Python `str.upper`, on ASCII strings. -/
def pyUpper (s : String) : String := String.mk (s.data.map upperChar)

/-- A calendar date, modelling `datetime.date`. -/
structure Date where
  year : Nat
  month : Nat
  day : Nat
deriving DecidableEq

/-- Gregorian leap-year rule, as implemented by Python's `datetime`. -/
def isLeapYear (y : Nat) : Prop := y % 4 = 0 ∧ (y % 100 ≠ 0 ∨ y % 400 = 0)

instance (y : Nat) : Decidable (isLeapYear y) := by unfold isLeapYear; infer_instance

/-- Number of days of month `m` in year `y`. -/
def daysInMonth (y m : Nat) : Nat :=
  if m = 2 then (if isLeapYear y then 29 else 28)
  else if m = 4 ∨ m = 6 ∨ m = 9 ∨ m = 11 then 30
  else 31

/-- The dates representable by `datetime.date`: years 1..9999 and real
calendar days. -/
def Date.isValid (d : Date) : Prop :=
  1 ≤ d.year ∧ d.year ≤ 9999 ∧ 1 ≤ d.month ∧ d.month ≤ 12 ∧
    1 ≤ d.day ∧ d.day ≤ daysInMonth d.year d.month

instance (d : Date) : Decidable d.isValid := by unfold Date.isValid; infer_instance

/-- The ASCII digit character for `n` (meaningful for `n ≤ 9`). -/
def digitChar (n : Nat) : Char := Char.ofNat (48 + n)

/-- Python `str(date)`: the zero-padded ISO form `YYYY-MM-DD`. -/
def dateToIso (d : Date) : String :=
  String.mk [digitChar (d.year / 1000 % 10), digitChar (d.year / 100 % 10),
             digitChar (d.year / 10 % 10), digitChar (d.year % 10), '-',
             digitChar (d.month / 10 % 10), digitChar (d.month % 10), '-',
             digitChar (d.day / 10 % 10), digitChar (d.day % 10)]

/-- The numeric value of an ASCII digit character, `none` on anything else. -/
def charDigit (c : Char) : Option Nat :=
  if 48 ≤ c.toNat ∧ c.toNat ≤ 57 then some (c.toNat - 48) else none

/-- Shape parsing of a `YYYY-MM-DD` string into its three numeric fields,
with no calendar validation yet. -/
def rawParseDate (s : String) : Option Date :=
  match s.data with
  | [y1, y2, y3, y4, sep1, m1, m2, sep2, d1, d2] =>
    if sep1 = '-' ∧ sep2 = '-' then
      (charDigit y1).bind fun a =>
      (charDigit y2).bind fun b =>
      (charDigit y3).bind fun c =>
      (charDigit y4).bind fun e =>
      (charDigit m1).bind fun f =>
      (charDigit m2).bind fun g =>
      (charDigit d1).bind fun p =>
      (charDigit d2).bind fun q =>
      some ⟨a * 1000 + b * 100 + c * 10 + e, f * 10 + g, p * 10 + q⟩
    else none
  | _ => none

/-- Python `datetime.date.fromisoformat` on `YYYY-MM-DD` input: parse the
three fields and validate them as a calendar date; `none` models the
`ValueError` raised on malformed or out-of-range input. -/
def dateFromIso (s : String) : Option Date :=
  match rawParseDate s with
  | some d => if d.isValid then some d else none
  | none => none

/-- The `Transaction` class: `description` (lowercased on construction),
`amount`, and `date` stored as the string `str(date)`.  `to_dict` returns
exactly these three fields, so the same structure also serves as the stored
(JSON) form of a transaction. -/
structure Transaction where
  description : String
  amount : ℚ
  date : String
deriving DecidableEq

/-- `Transaction.__init__(description, amount, date)`: lowercases the
description and stores `str(date)`. -/
def mkTransaction (description : String) (amount : ℚ) (date : Date) : Transaction :=
  { description := pyLower description, amount := amount, date := dateToIso date }

/-- One value of the persisted JSON object: the
`{"budget": _, "currency": _, "transactions": [...]}` record stored under an
account name. -/
structure StoredRecord where
  budget : ℚ
  currency : String
  transactions : List Transaction
deriving DecidableEq

/-- The parsed persisted JSON object: an insertion-ordered mapping from
account name to stored record. -/
abbrev Store := List (String × StoredRecord)

/-- Python dict lookup `data[key]` / `key in data` (first matching key). -/
def lookupStore : Store → String → Option StoredRecord
  | [], _ => none
  | (k, v) :: rest, key => if k = key then some v else lookupStore rest key

/-- Python dict assignment `data[key] = v`: replace the value in place when
the key is present, append a new entry otherwise. -/
def insertStore : Store → String → StoredRecord → Store
  | [], key, v => [(key, v)]
  | (k, w) :: rest, key, v =>
    if k = key then (key, v) :: rest else (k, w) :: insertStore rest key v

/-- The state of the persisted file `database.json`. -/
inductive FileState where
  | missing
  | malformed
  | valid (store : Store)
deriving DecidableEq

/-- An `Account` object: lowercased `name`, `budget`, uppercased validated
`currency`, and the in-memory transaction list. -/
structure Account where
  name : String
  budget : ℚ
  currency : String
  transactions : List Transaction
deriving DecidableEq

/-- `Account.load_data`: read and parse the whole file, returning the empty
mapping when the file is missing (`FileNotFoundError`) or its content is
malformed (`json.JSONDecodeError`) - both exceptions are caught. -/
def Account.load_data : FileState → Store
  | .missing => []
  | .malformed => []
  | .valid s => s

/-- `Account.save_to_file`: re-load the whole store, overwrite this account's
entry with its current state (`to_dict` of each transaction is the identity
on our transaction records), and write the whole store back. -/
def Account.save_to_file (a : Account) (fs : FileState) : FileState :=
  .valid (insertStore (Account.load_data fs) a.name
    { budget := a.budget, currency := a.currency, transactions := a.transactions })

/-- `Account.list_accounts`: the key list of the loaded store. -/
def Account.list_accounts (fs : FileState) : List String :=
  (Account.load_data fs).map Prod.fst

/-- Outcome of the `requests.get` call in `ExchangeRate.get_data`: either a
successful response whose JSON body's `rates` field is the given mapping, or
a `requests.RequestException`. -/
inductive NetResult where
  | ok (rates : List (String × ℚ))
  | failure
deriving DecidableEq

/-- `ExchangeRate.get_data`: the `rates` mapping of the response on success;
on a `RequestException`, the error is swallowed (a diagnostic is printed) and
the hardcoded fallback table is returned. -/
def ExchangeRate.get_data : NetResult → List (String × ℚ)
  | .ok rates => rates
  | .failure => [("USD", 1.0), ("INR", 74.0), ("PKR", 160.0), ("JPY", 110.0)]

/-- `ExchangeRate.list_currency`: `list(get_data())`, i.e. the key list of
the rate mapping. -/
def ExchangeRate.list_currency (net : NetResult) : List String :=
  (ExchangeRate.get_data net).map Prod.fst

/-- The two `ValueError`s that `Account.__init__` can raise:
`invalidCurrency` for the explicit `raise ValueError("Enter a valid
currency...")`, and `badStoredDate` for the `ValueError` that
`datetime.date.fromisoformat` raises while rebuilding a stored transaction
whose date string is malformed. -/
inductive InitError where
  | invalidCurrency
  | badStoredDate
deriving DecidableEq

deriving instance DecidableEq for Except

/-- Rebuilding one stored transaction in `Account.__init__`:
`Transaction(t["description"], t["amount"], datetime.date.fromisoformat(t["date"]))`. -/
def reloadTxn (t : Transaction) : Option Transaction :=
  (dateFromIso t.date).map fun d => mkTransaction t.description t.amount d

/-- The list comprehension rebuilding all stored transactions; `none` when
any stored date string fails `fromisoformat`. -/
def reloadTxns : List Transaction → Option (List Transaction)
  | [] => some []
  | t :: rest =>
    match reloadTxn t, reloadTxns rest with
    | some t2, some rest2 => some (t2 :: rest2)
    | _, _ => none

/-- `Account.__init__(name, budget, currency="USD")`: lowercase the name;
validate the uppercased currency against `ExchangeRate.list_currency()`
(raising before touching the file when it is unknown); load the store; if the
name is already a key, adopt the stored budget, currency and transactions
(rebuilding each transaction, which can raise on a malformed stored date),
otherwise adopt the supplied budget and validated currency with no
transactions; finally save the account back to the file.  The returned pair
is the outcome (`Except`) together with the resulting file state, which is
unchanged on every error path. -/
def Account.init (name : String) (budget : ℚ) (currency : String)
    (net : NetResult) (fs : FileState) : Except InitError Account × FileState :=
  let nameL := pyLower name
  if (ExchangeRate.list_currency net).contains (pyUpper currency) then
    let data := Account.load_data fs
    match lookupStore data nameL with
    | some rec =>
      match reloadTxns rec.transactions with
      | some txns =>
        let a : Account :=
          { name := nameL, budget := rec.budget, currency := rec.currency,
            transactions := txns }
        (.ok a, a.save_to_file fs)
      | none => (.error .badStoredDate, fs)
    | none =>
      let a : Account :=
        { name := nameL, budget := budget, currency := pyUpper currency,
          transactions := [] }
      (.ok a, a.save_to_file fs)
  else
    (.error .invalidCurrency, fs)

/-- `Account.add_transaction(description, amount, date)` with an explicit
date argument: append `Transaction(description, amount, date)` and persist. -/
def Account.add_transaction (a : Account) (description : String) (amount : ℚ)
    (date : Date) (fs : FileState) : Account × FileState :=
  let a2 := { a with transactions := a.transactions ++ [mkTransaction description amount date] }
  (a2, a2.save_to_file fs)

/-- `Account.add_transaction(description, amount)` with the date argument
omitted.  In the source the parameter default is `datetime.date.today()`,
an expression Python evaluates once, when the `def` statement is executed at
module import - not at each call.  `moduleLoadDay` is that single evaluation;
a call made on a later day still appends `moduleLoadDay`. -/
def Account.add_transaction_defaultDate (a : Account) (description : String)
    (amount : ℚ) (moduleLoadDay : Date) (fs : FileState) : Account × FileState :=
  a.add_transaction description amount moduleLoadDay fs

/-- `Account.balance()`: `self.budget - sum(t.amount for t in self.transactions)`. -/
def Account.balance (a : Account) : ℚ :=
  a.budget - (a.transactions.map Transaction.amount).sum

/-- Appending a sequence of transactions one call at a time, threading the
file state through the successive `add_transaction` calls. -/
def Account.addAll (a : Account) (l : List (String × ℚ × Date))
    (fs : FileState) : Account × FileState :=
  match l with
  | [] => (a, fs)
  | (d, amt, dt) :: rest =>
    let p := a.add_transaction d amt dt fs
    Account.addAll p.1 rest p.2

/-- Well-formedness of a transaction record as the program itself writes
them: the description is already lowercase and the date string is the
canonical ISO form of a valid calendar date. -/
def Transaction.wf (t : Transaction) : Prop :=
  pyLower t.description = t.description ∧
    ∃ d : Date, d.isValid ∧ t.date = dateToIso d

/-- Well-formedness of an in-memory account as the constructor produces
them: the name is already lowercase and every transaction is well-formed. -/
def Account.wf (a : Account) : Prop :=
  pyLower a.name = a.name ∧ ∀ t ∈ a.transactions, t.wf

/-- The account's current state is what the store holds under its name. -/
def Account.persisted (a : Account) (fs : FileState) : Prop :=
  lookupStore (Account.load_data fs) a.name =
    some { budget := a.budget, currency := a.currency, transactions := a.transactions }

instance (a : Account) (fs : FileState) : Decidable (a.persisted fs) := by
  unfold Account.persisted
  infer_instance

/-! Basic facts about the character-level and date-level operations. -/

theorem char_toNat_ofNat (n : Nat) (h : n < 55296) : (Char.ofNat n).toNat = n := by
  unfold Char.ofNat
  rw [dif_pos (Or.inl h)]
  simp [Char.ofNatAux, Char.toNat, UInt32.toNat]

theorem lowerChar_idem (c : Char) : lowerChar (lowerChar c) = lowerChar c := by
  by_cases h : 65 ≤ c.toNat ∧ c.toNat ≤ 90
  · have h32 : (Char.ofNat (c.toNat + 32)).toNat = c.toNat + 32 :=
      char_toNat_ofNat _ (by omega)
    simp only [lowerChar, if_pos h, h32]
    rw [if_neg (by omega)]
  · simp only [lowerChar, if_neg h]

theorem pyLower_idem (s : String) : pyLower (pyLower s) = pyLower s := by
  unfold pyLower
  congr 1
  show (s.data.map lowerChar).map lowerChar = s.data.map lowerChar
  rw [List.map_map]
  exact List.map_congr_left fun c _ => lowerChar_idem c

theorem charDigit_digitChar (n : Nat) (h : n ≤ 9) :
    charDigit (digitChar n) = some n := by
  have h48 : (Char.ofNat (48 + n)).toNat = 48 + n := char_toNat_ofNat _ (by omega)
  unfold charDigit digitChar
  rw [h48, if_pos (by omega)]
  congr 1
  omega

theorem daysInMonth_le_31 (y m : Nat) : daysInMonth y m ≤ 31 := by
  unfold daysInMonth
  split
  · split <;> omega
  · split <;> omega

theorem rawParseDate_dateToIso (d : Date) (hy : d.year ≤ 9999)
    (hm : d.month ≤ 99) (hd : d.day ≤ 99) :
    rawParseDate (dateToIso d) = some d := by
  have e1 := charDigit_digitChar (d.year / 1000 % 10) (by omega)
  have e2 := charDigit_digitChar (d.year / 100 % 10) (by omega)
  have e3 := charDigit_digitChar (d.year / 10 % 10) (by omega)
  have e4 := charDigit_digitChar (d.year % 10) (by omega)
  have e5 := charDigit_digitChar (d.month / 10 % 10) (by omega)
  have e6 := charDigit_digitChar (d.month % 10) (by omega)
  have e7 := charDigit_digitChar (d.day / 10 % 10) (by omega)
  have e8 := charDigit_digitChar (d.day % 10) (by omega)
  show (if ('-' : Char) = '-' ∧ ('-' : Char) = '-' then _ else none) = some d
  rw [e1, e2, e3, e4, e5, e6, e7, e8]
  simp only [Option.some_bind', eq_self_iff_true, and_self, ite_true]
  have hy2 : d.year / 1000 % 10 * 1000 + d.year / 100 % 10 * 100 +
      d.year / 10 % 10 * 10 + d.year % 10 = d.year := by omega
  have hm2 : d.month / 10 % 10 * 10 + d.month % 10 = d.month := by omega
  have hd2 : d.day / 10 % 10 * 10 + d.day % 10 = d.day := by omega
  rw [hy2, hm2, hd2]

theorem dateFromIso_dateToIso (d : Date) (h : d.isValid) :
    dateFromIso (dateToIso d) = some d := by
  obtain ⟨h1, h2, h3, h4, h5, h6⟩ := h
  have hd31 : d.day ≤ 31 := le_trans h6 (daysInMonth_le_31 d.year d.month)
  have hraw := rawParseDate_dateToIso d h2 (by omega) (by omega)
  unfold dateFromIso
  rw [hraw]
  show (if d.isValid then some d else none) = some d
  rw [if_pos ⟨h1, h2, h3, h4, h5, h6⟩]

theorem dateFromIso_isValid (s : String) (d : Date)
    (h : dateFromIso s = some d) : d.isValid := by
  unfold dateFromIso at h
  split at h
  · split at h
    · have h2 := Option.some.inj h
      subst h2
      assumption
    · simp at h
  · simp at h

/-! Facts about the store operations. -/

theorem lookup_insertStore_self (s : Store) (k : String) (v : StoredRecord) :
    lookupStore (insertStore s k v) k = some v := by
  induction s with
  | nil => simp [insertStore, lookupStore]
  | cons p rest ih =>
    obtain ⟨k2, w⟩ := p
    by_cases h : k2 = k
    · simp [insertStore, lookupStore, h]
    · simp only [insertStore, if_neg h]
      simp [lookupStore, h, ih]

theorem lookup_insertStore_ne (s : Store) (k other : String) (v : StoredRecord)
    (h : other ≠ k) :
    lookupStore (insertStore s k v) other = lookupStore s other := by
  induction s with
  | nil =>
    simp only [insertStore, lookupStore]
    rw [if_neg (Ne.symm h)]
  | cons p rest ih =>
    obtain ⟨k2, w⟩ := p
    by_cases hk : k2 = k
    · subst hk
      simp [insertStore, lookupStore, Ne.symm h]
    · simp only [insertStore, if_neg hk]
      by_cases ho : k2 = other
      · simp [lookupStore, ho]
      · simp [lookupStore, ho, ih]

/-! Facts about rebuilding stored transactions and about well-formedness. -/

theorem mkTransaction_wf (desc : String) (amt : ℚ) (d : Date) (hv : d.isValid) :
    (mkTransaction desc amt d).wf :=
  ⟨pyLower_idem desc, d, hv, rfl⟩

theorem reloadTxn_wf (t : Transaction) (h : t.wf) : reloadTxn t = some t := by
  obtain ⟨hdesc, d, hv, hdate⟩ := h
  unfold reloadTxn
  rw [hdate, dateFromIso_dateToIso d hv]
  simp only [Option.map_some']
  unfold mkTransaction
  rw [hdesc, ← hdate]

theorem reloadTxns_wf (l : List Transaction) (h : ∀ t ∈ l, t.wf) :
    reloadTxns l = some l := by
  induction l with
  | nil => rfl
  | cons t rest ih =>
    unfold reloadTxns
    rw [reloadTxn_wf t (h t (by simp)), ih fun x hx => h x (by simp [hx])]

theorem reloadTxn_result_wf (t t2 : Transaction) (h : reloadTxn t = some t2) :
    t2.wf := by
  unfold reloadTxn at h
  cases hd : dateFromIso t.date with
  | none => rw [hd] at h; simp at h
  | some d =>
    rw [hd] at h
    simp only [Option.map_some'] at h
    have h2 := Option.some.inj h
    subst h2
    exact mkTransaction_wf _ _ _ (dateFromIso_isValid _ _ hd)

theorem reloadTxns_result_wf (l l2 : List Transaction)
    (h : reloadTxns l = some l2) : ∀ t ∈ l2, t.wf := by
  induction l generalizing l2 with
  | nil =>
    have h2 : [] = l2 := Option.some.inj h
    subst h2
    simp
  | cons t rest ih =>
    unfold reloadTxns at h
    cases h1 : reloadTxn t with
    | none => rw [h1] at h; simp at h
    | some t2 =>
      cases h2 : reloadTxns rest with
      | none => rw [h1, h2] at h; simp at h
      | some rest2 =>
        rw [h1, h2] at h
        have h3 : t2 :: rest2 = l2 := Option.some.inj h
        subst h3
        intro x hx
        rcases List.mem_cons.mp hx with rfl | hx2
        · exact reloadTxn_result_wf t x h1
        · exact ih rest2 h2 x hx2

/-! Characterization of the three outcomes of `Account.init`, and the state
invariants it establishes. -/

theorem init_of_invalid (name : String) (b : ℚ) (currency : String)
    (net : NetResult) (fs : FileState)
    (hc : (ExchangeRate.list_currency net).contains (pyUpper currency) = false) :
    Account.init name b currency net fs = (.error .invalidCurrency, fs) := by
  have hm : pyUpper currency ∉ ExchangeRate.list_currency net := by simpa using hc
  simp [Account.init, hm]

theorem init_of_fresh (name : String) (b : ℚ) (currency : String)
    (net : NetResult) (fs : FileState)
    (hc : (ExchangeRate.list_currency net).contains (pyUpper currency) = true)
    (hlk : lookupStore (Account.load_data fs) (pyLower name) = none) :
    Account.init name b currency net fs =
      (.ok ⟨pyLower name, b, pyUpper currency, []⟩,
       Account.save_to_file ⟨pyLower name, b, pyUpper currency, []⟩ fs) := by
  have hm : pyUpper currency ∈ ExchangeRate.list_currency net := by simpa using hc
  simp [Account.init, hm, hlk]

theorem init_of_stored (name : String) (b : ℚ) (currency : String)
    (net : NetResult) (fs : FileState) (rec : StoredRecord)
    (txns : List Transaction)
    (hc : (ExchangeRate.list_currency net).contains (pyUpper currency) = true)
    (hlk : lookupStore (Account.load_data fs) (pyLower name) = some rec)
    (hrl : reloadTxns rec.transactions = some txns) :
    Account.init name b currency net fs =
      (.ok ⟨pyLower name, rec.budget, rec.currency, txns⟩,
       Account.save_to_file ⟨pyLower name, rec.budget, rec.currency, txns⟩ fs) := by
  have hm : pyUpper currency ∈ ExchangeRate.list_currency net := by simpa using hc
  simp [Account.init, hm, hlk, hrl]

theorem save_persisted (a : Account) (fs : FileState) :
    a.persisted (a.save_to_file fs) := by
  unfold Account.persisted Account.save_to_file
  show lookupStore (Account.load_data (.valid _)) a.name = _
  unfold Account.load_data
  exact lookup_insertStore_self _ _ _

theorem init_of_baddate (name : String) (b : ℚ) (currency : String)
    (net : NetResult) (fs : FileState) (rec : StoredRecord)
    (hc : (ExchangeRate.list_currency net).contains (pyUpper currency) = true)
    (hlk : lookupStore (Account.load_data fs) (pyLower name) = some rec)
    (hrl : reloadTxns rec.transactions = none) :
    Account.init name b currency net fs = (.error .badStoredDate, fs) := by
  have hm : pyUpper currency ∈ ExchangeRate.list_currency net := by simpa using hc
  simp [Account.init, hm, hlk, hrl]

theorem init_ok_invariants (name : String) (b : ℚ) (c : String)
    (net : NetResult) (fs : FileState) (a : Account) (fs2 : FileState)
    (h : Account.init name b c net fs = (.ok a, fs2)) :
    a.wf ∧ a.persisted fs2 ∧ a.name = pyLower name := by
  cases hc : (ExchangeRate.list_currency net).contains (pyUpper c) with
  | false => rw [init_of_invalid name b c net fs hc] at h; simp at h
  | true =>
    cases hlk : lookupStore (Account.load_data fs) (pyLower name) with
    | none =>
      rw [init_of_fresh name b c net fs hc hlk] at h
      injection h with h1 h2
      injection h1 with h1
      subst h1
      subst h2
      exact ⟨⟨pyLower_idem name, by simp⟩, save_persisted _ _, rfl⟩
    | some rec =>
      cases hrl : reloadTxns rec.transactions with
      | none =>
        rw [init_of_baddate name b c net fs rec hc hlk hrl] at h
        simp at h
      | some txns =>
        rw [init_of_stored name b c net fs rec txns hc hlk hrl] at h
        injection h with h1 h2
        injection h1 with h1
        subst h1
        subst h2
        exact ⟨⟨pyLower_idem name, reloadTxns_result_wf _ _ hrl⟩,
               save_persisted _ _, rfl⟩

/-! Facts about `add_transaction` and repeated appends. -/

theorem add_transaction_fst (a : Account) (desc : String) (amt : ℚ) (dt : Date)
    (fs : FileState) :
    (a.add_transaction desc amt dt fs).1 =
      { a with transactions := a.transactions ++ [mkTransaction desc amt dt] } := rfl

theorem add_transaction_wf (a : Account) (desc : String) (amt : ℚ) (dt : Date)
    (fs : FileState) (hwf : a.wf) (hv : dt.isValid) :
    (a.add_transaction desc amt dt fs).1.wf := by
  obtain ⟨hn, ht⟩ := hwf
  refine ⟨hn, ?_⟩
  intro t hmem
  rcases List.mem_append.mp hmem with h1 | h1
  · exact ht t h1
  · rw [List.mem_singleton.mp h1]
    exact mkTransaction_wf desc amt dt hv

theorem addAll_spec (l : List (String × ℚ × Date)) :
    ∀ (a : Account) (fs : FileState), a.wf → a.persisted fs →
      (∀ x ∈ l, (x.2.2 : Date).isValid) →
      (Account.addAll a l fs).1 =
          { a with transactions :=
              a.transactions ++ l.map fun x => mkTransaction x.1 x.2.1 x.2.2 } ∧
        (Account.addAll a l fs).1.wf ∧
        (Account.addAll a l fs).1.persisted (Account.addAll a l fs).2 := by
  induction l with
  | nil =>
    intro a fs hwf hp _
    refine ⟨?_, hwf, hp⟩
    simp [Account.addAll]
  | cons x rest ih =>
    intro a fs hwf hp hv
    obtain ⟨desc, amt, dt⟩ := x
    have hvdt : dt.isValid := hv (desc, amt, dt) (by simp)
    have hvrest : ∀ y ∈ rest, (y.2.2 : Date).isValid := fun y hy => hv y (by simp [hy])
    have hwf1 := add_transaction_wf a desc amt dt fs hwf hvdt
    have hp1 : ((a.add_transaction desc amt dt fs).1).persisted
        (a.add_transaction desc amt dt fs).2 :=
      save_persisted _ fs
    have hrec := ih (a.add_transaction desc amt dt fs).1
      (a.add_transaction desc amt dt fs).2 hwf1 hp1 hvrest
    have hE : Account.addAll a ((desc, amt, dt) :: rest) fs
        = Account.addAll (a.add_transaction desc amt dt fs).1 rest
            (a.add_transaction desc amt dt fs).2 := rfl
    rw [hE]
    obtain ⟨heq, hw2, hp2⟩ := hrec
    refine ⟨?_, hw2, hp2⟩
    rw [heq]
    simp [add_transaction_fst, List.append_assoc]

theorem addAll_balance (l : List (String × ℚ × Date)) :
    ∀ (a : Account) (fs : FileState),
      (Account.addAll a l fs).1.balance =
        a.budget - ((a.transactions.map Transaction.amount).sum +
          (l.map fun x => x.2.1).sum) := by
  induction l with
  | nil =>
    intro a fs
    simp [Account.addAll, Account.balance]
  | cons x rest ih =>
    intro a fs
    obtain ⟨desc, amt, dt⟩ := x
    have hE : Account.addAll a ((desc, amt, dt) :: rest) fs
        = Account.addAll (a.add_transaction desc amt dt fs).1 rest
            (a.add_transaction desc amt dt fs).2 := rfl
    rw [hE, ih]
    simp [add_transaction_fst, mkTransaction]
    ring

theorem save_frame (a : Account) (fs : FileState) (other : String)
    (h : other ≠ a.name) :
    lookupStore (Account.load_data (a.save_to_file fs)) other =
      lookupStore (Account.load_data fs) other := by
  unfold Account.save_to_file
  show lookupStore (Account.load_data (.valid _)) other = _
  exact lookup_insertStore_ne _ _ _ _ h

/-! The claims. -/

/-- C1: constructing an account whose (lowercased) name is already a key of
the store ignores the supplied budget 999 and currency PKR and instead
adopts the stored budget 100, currency USD, and exactly the stored
transactions.  The store is quantified over all stores holding records of
the shape the program itself writes (lowercase descriptions, canonical
`YYYY-MM-DD` date strings - the `Transaction.wf` hypothesis), and PKR is
assumed to pass validation, as it does whenever the fallback table is in
effect. -/
theorem claim_C1_stored_override (name : String) (net : NetResult)
    (fs : FileState) (rec : StoredRecord)
    (hlk : lookupStore (Account.load_data fs) (pyLower name) = some rec)
    (hb : rec.budget = 100) (hcur : rec.currency = "USD")
    (hwf : ∀ t ∈ rec.transactions, t.wf)
    (hc : (ExchangeRate.list_currency net).contains "PKR" = true) :
    (Account.init name 999 "PKR" net fs).1 =
      .ok ⟨pyLower name, 100, "USD", rec.transactions⟩ := by
  have hup : pyUpper "PKR" = "PKR" := by decide
  have hrl := reloadTxns_wf rec.transactions hwf
  rw [init_of_stored name 999 "PKR" net fs rec rec.transactions
    (by rw [hup]; exact hc) hlk hrl]
  rw [hb, hcur]

theorem claim_C1_witness :
    lookupStore (Account.load_data
          (.valid [("alice", ⟨100, "USD", [⟨"coffee", 4, "2024-01-01"⟩]⟩)]))
        (pyLower "Alice") = some ⟨100, "USD", [⟨"coffee", 4, "2024-01-01"⟩]⟩ ∧
      (Account.init "Alice" 999 "PKR" .failure
          (.valid [("alice", ⟨100, "USD", [⟨"coffee", 4, "2024-01-01"⟩]⟩)])).1 =
        .ok ⟨pyLower "Alice", 100, "USD", [⟨"coffee", 4, "2024-01-01"⟩]⟩ := by
  have hwf : ∀ t ∈ [(⟨"coffee", 4, "2024-01-01"⟩ : Transaction)], t.wf := by
    intro t ht
    rw [List.mem_singleton.mp ht]
    exact ⟨by decide, ⟨2024, 1, 1⟩, by decide, by decide⟩
  exact ⟨by decide, claim_C1_stored_override "Alice" .failure
    (.valid [("alice", ⟨100, "USD", [⟨"coffee", 4, "2024-01-01"⟩]⟩)])
    ⟨100, "USD", [⟨"coffee", 4, "2024-01-01"⟩]⟩ (by decide) rfl rfl hwf (by decide)⟩

/-- C2: after appending any sequence of transactions to any account,
`balance()` equals the budget minus the sum of all recorded amounts (the
pre-existing ones plus the appended ones), and with no transactions the
balance equals the budget. -/
theorem claim_C2_balance (a : Account) (l : List (String × ℚ × Date))
    (fs : FileState) :
    (Account.addAll a l fs).1.balance =
        a.budget - ((a.transactions.map Transaction.amount).sum +
          (l.map fun x => x.2.1).sum) ∧
      (a.transactions = [] → a.balance = a.budget) := by
  refine ⟨addAll_balance l a fs, fun h => ?_⟩
  simp [Account.balance, h]

theorem claim_C2_witness :
    (Account.addAll ⟨"alice", 500, "USD", []⟩
          [("coffee", 4, ⟨2024, 1, 1⟩)] FileState.missing).1.balance =
        (500 : ℚ) - ((([] : List Transaction).map Transaction.amount).sum +
          ([("coffee", (4 : ℚ), (⟨2024, 1, 1⟩ : Date))].map fun x => x.2.1).sum) ∧
      Account.balance ⟨"alice", 500, "USD", []⟩ = 500 :=
  ⟨(claim_C2_balance ⟨"alice", 500, "USD", []⟩
      [("coffee", 4, ⟨2024, 1, 1⟩)] FileState.missing).1,
   (claim_C2_balance ⟨"alice", 500, "USD", []⟩ [] FileState.missing).2 rfl⟩

/-- C5: constructing an account whose uppercased currency is not in the
current currency list fails with the invalid-currency `ValueError`, and the
fallback key set (used when the remote service is unreachable) is exactly
USD, INR, PKR, JPY. -/
theorem claim_C5_invalid_currency (name : String) (b : ℚ) (currency : String)
    (net : NetResult) (fs : FileState)
    (hc : (ExchangeRate.list_currency net).contains (pyUpper currency) = false) :
    (Account.init name b currency net fs).1 = .error .invalidCurrency ∧
      ExchangeRate.list_currency .failure = ["USD", "INR", "PKR", "JPY"] :=
  ⟨by rw [init_of_invalid name b currency net fs hc], rfl⟩

theorem claim_C5_witness :
    (ExchangeRate.list_currency .failure).contains (pyUpper "EUR") = false ∧
      (Account.init "alice" 100 "EUR" .failure .missing).1 =
        .error .invalidCurrency ∧
      ExchangeRate.list_currency .failure = ["USD", "INR", "PKR", "JPY"] :=
  ⟨by decide,
   claim_C5_invalid_currency "alice" 100 "EUR" .failure .missing (by decide)⟩

/-- C6: `load_data` fails soft: a missing file and a malformed file both
yield the empty mapping (and hence an empty account list); `load_data` is a
total function into `Store`, so no error reaches the caller. -/
theorem claim_C6_load_fails_soft :
    Account.load_data .missing = [] ∧ Account.load_data .malformed = [] ∧
      Account.list_accounts .missing = [] ∧
      Account.list_accounts .malformed = [] :=
  ⟨rfl, rfl, rfl, rfl⟩

/-- C7: on a transport failure `get_data` swallows the error and returns the
hardcoded fallback mapping of exactly USD, INR, PKR, JPY, and
`list_currency` always returns the key list of `get_data`'s result. -/
theorem claim_C7_fallback_rates :
    ExchangeRate.get_data .failure =
        [("USD", 1.0), ("INR", 74.0), ("PKR", 160.0), ("JPY", 110.0)] ∧
      ∀ net : NetResult, ExchangeRate.list_currency net =
        (ExchangeRate.get_data net).map Prod.fst :=
  ⟨rfl, fun _ => rfl⟩

/-- C10: the currency is validated before the store is consulted: even when
the lowercased name is already a key of the store, an unknown currency makes
the constructor raise the invalid-currency error, and the file state is
returned unchanged - no load or save has happened. -/
theorem claim_C10_validate_before_store (name : String) (b : ℚ)
    (currency : String) (net : NetResult) (fs : FileState) (rec : StoredRecord)
    (hmem : lookupStore (Account.load_data fs) (pyLower name) = some rec)
    (hc : (ExchangeRate.list_currency net).contains (pyUpper currency) = false) :
    Account.init name b currency net fs = (.error .invalidCurrency, fs) :=
  init_of_invalid name b currency net fs hc

theorem claim_C10_witness :
    lookupStore (Account.load_data (.valid [("alice", ⟨100, "USD", []⟩)]))
        (pyLower "alice") = some ⟨100, "USD", []⟩ ∧
      (ExchangeRate.list_currency .failure).contains (pyUpper "EUR") = false ∧
      Account.init "alice" 999 "EUR" .failure
          (.valid [("alice", ⟨100, "USD", []⟩)]) =
        (.error .invalidCurrency, .valid [("alice", ⟨100, "USD", []⟩)]) :=
  ⟨by decide, by decide,
   claim_C10_validate_before_store "alice" 999 "EUR" .failure
     (.valid [("alice", ⟨100, "USD", []⟩)]) ⟨100, "USD", []⟩ (by decide) (by decide)⟩

/-- C3: a store round-trip.  Whenever a construction succeeds (for any prior
store state - the name may be fresh or already stored), constructing again
with the same arguments reloads the account through the store and yields the
same budget, currency, and transaction list. -/
theorem claim_C3_roundtrip (name : String) (b : ℚ) (c : String)
    (net : NetResult) (fs fs1 : FileState) (a1 : Account)
    (h1 : Account.init name b c net fs = (.ok a1, fs1)) :
    ∃ a2 fs2, Account.init name b c net fs1 = (.ok a2, fs2) ∧
      a2.budget = a1.budget ∧ a2.currency = a1.currency ∧
      a2.transactions = a1.transactions := by
  cases hc : (ExchangeRate.list_currency net).contains (pyUpper c) with
  | false =>
    rw [init_of_invalid name b c net fs hc] at h1
    simp at h1
  | true =>
    obtain ⟨⟨hn, htwf⟩, hp, hname⟩ := init_ok_invariants name b c net fs a1 fs1 h1
    have hlk : lookupStore (Account.load_data fs1) (pyLower name) =
        some ⟨a1.budget, a1.currency, a1.transactions⟩ := by
      have hp2 : lookupStore (Account.load_data fs1) a1.name =
          some ⟨a1.budget, a1.currency, a1.transactions⟩ := hp
      rw [hname] at hp2
      exact hp2
    have hrl : reloadTxns
        (⟨a1.budget, a1.currency, a1.transactions⟩ : StoredRecord).transactions =
        some a1.transactions :=
      reloadTxns_wf _ htwf
    exact ⟨⟨pyLower name, a1.budget, a1.currency, a1.transactions⟩, _,
      init_of_stored name b c net fs1 _ _ hc hlk hrl, rfl, rfl, rfl⟩

theorem claim_C3_witness :
    Account.init "alice" 500 "USD" .failure .missing =
        (.ok ⟨"alice", 500, "USD", []⟩, .valid [("alice", ⟨500, "USD", []⟩)]) ∧
      ∃ a2 fs2, Account.init "alice" 500 "USD" .failure
            (.valid [("alice", ⟨500, "USD", []⟩)]) = (.ok a2, fs2) ∧
          a2.budget = 500 ∧ a2.currency = "USD" ∧
          a2.transactions = ([] : List Transaction) :=
  ⟨by decide, claim_C3_roundtrip "alice" 500 "USD" .failure .missing
    (.valid [("alice", ⟨500, "USD", []⟩)]) ⟨"alice", 500, "USD", []⟩ (by decide)⟩

/-- C4: appending N transactions to a freshly constructed (empty,
well-formed, persisted) account and then reloading it through the store
yields exactly the N appended transactions, in insertion order, each with
its description lowercased and its date stored as the canonical `YYYY-MM-DD`
string of the supplied date. -/
theorem claim_C4_append_reload (a : Account) (fs : FileState)
    (l : List (String × ℚ × Date)) (b : ℚ) (c : String) (net : NetResult)
    (hwf : a.wf) (hp : a.persisted fs) (hfresh : a.transactions = [])
    (hv : ∀ x ∈ l, (x.2.2 : Date).isValid)
    (hc : (ExchangeRate.list_currency net).contains (pyUpper c) = true) :
    ∃ a2 fs2,
      Account.init a.name b c net (Account.addAll a l fs).2 = (.ok a2, fs2) ∧
        a2.transactions =
          (l.map fun x =>
            (⟨pyLower x.1, x.2.1, dateToIso x.2.2⟩ : Transaction)) ∧
        a2.transactions.length = l.length := by
  obtain ⟨heq, ⟨hn2, htwf2⟩, hp2⟩ := addAll_spec l a fs hwf hp hv
  have hname : pyLower a.name = a.name := hwf.1
  have haname : (Account.addAll a l fs).1.name = a.name := by rw [heq]
  have hlk : lookupStore (Account.load_data (Account.addAll a l fs).2)
      (pyLower a.name) = some ⟨(Account.addAll a l fs).1.budget,
        (Account.addAll a l fs).1.currency,
        (Account.addAll a l fs).1.transactions⟩ := by
    rw [hname, ← haname]
    exact hp2
  have hrl : reloadTxns (⟨(Account.addAll a l fs).1.budget,
      (Account.addAll a l fs).1.currency,
      (Account.addAll a l fs).1.transactions⟩ : StoredRecord).transactions =
      some (Account.addAll a l fs).1.transactions :=
    reloadTxns_wf _ htwf2
  have htx : (Account.addAll a l fs).1.transactions =
      l.map fun x => (⟨pyLower x.1, x.2.1, dateToIso x.2.2⟩ : Transaction) := by
    rw [heq]
    show a.transactions ++ _ = _
    rw [hfresh]
    simp [mkTransaction]
  refine ⟨⟨pyLower a.name, (Account.addAll a l fs).1.budget,
      (Account.addAll a l fs).1.currency,
      (Account.addAll a l fs).1.transactions⟩, _,
    init_of_stored a.name b c net _ _ _ hc hlk hrl, ?_, ?_⟩
  · exact htx
  · show (Account.addAll a l fs).1.transactions.length = l.length
    rw [htx, List.length_map]

theorem claim_C4_witness :
    ∃ a2 fs2,
      Account.init "alice" 0 "usd" .failure
          (Account.addAll ⟨"alice", 500, "USD", []⟩
            [("Coffee", 4, ⟨2024, 1, 1⟩)]
            (.valid [("alice", ⟨500, "USD", []⟩)])).2 = (.ok a2, fs2) ∧
        a2.transactions = [(⟨pyLower "Coffee", 4, dateToIso ⟨2024, 1, 1⟩⟩ :
          Transaction)] ∧
        a2.transactions.length = 1 := by
  have hv : ∀ x ∈ [("Coffee", (4 : ℚ), (⟨2024, 1, 1⟩ : Date))],
      (x.2.2 : Date).isValid := by
    intro x hx
    rw [List.mem_singleton.mp hx]
    decide
  exact claim_C4_append_reload ⟨"alice", 500, "USD", []⟩
    (.valid [("alice", ⟨500, "USD", []⟩)]) [("Coffee", 4, ⟨2024, 1, 1⟩)]
    0 "usd" .failure ⟨by decide, by simp⟩ (by decide) rfl hv (by decide)

/-- C8: in the source, `add_transaction`'s omitted-date default is
`datetime.date.today()` evaluated once at function definition (module
import), not at each call.  Evaluating the code with the module imported on
2024-01-01: a call with the date omitted appends a transaction dated
2024-01-01 even when made on 2024-01-02, whose ISO form differs - contrary
to the claim that the appended date is the day of the call. -/
theorem claim_C8_default_is_import_day :
    ((Account.mk "alice" 500 "USD" []).add_transaction_defaultDate "coffee" 4
        ⟨2024, 1, 1⟩ FileState.missing).1.transactions =
      [⟨"coffee", 4, "2024-01-01"⟩] ∧
    dateToIso ⟨2024, 1, 2⟩ ≠ "2024-01-01" := by
  constructor
  · decide
  · decide

/-- C9: frame property of the two persisting operations.  Construction and
`add_transaction` only overwrite the constructing account's own entry: the
stored record of every other account name is unchanged (on the error paths
of construction the file is untouched altogether). -/
theorem claim_C9_frame (other name : String) (b : ℚ) (c : String)
    (net : NetResult) (fs1 : FileState) (a : Account) (desc : String)
    (amt : ℚ) (dt : Date) (fs2 : FileState)
    (h1 : other ≠ pyLower name) (h2 : other ≠ a.name) :
    lookupStore (Account.load_data (Account.init name b c net fs1).2) other =
        lookupStore (Account.load_data fs1) other ∧
      lookupStore (Account.load_data (a.add_transaction desc amt dt fs2).2)
          other =
        lookupStore (Account.load_data fs2) other := by
  constructor
  · cases hc : (ExchangeRate.list_currency net).contains (pyUpper c) with
    | false => rw [init_of_invalid name b c net fs1 hc]
    | true =>
      cases hlk : lookupStore (Account.load_data fs1) (pyLower name) with
      | none =>
        rw [init_of_fresh name b c net fs1 hc hlk]
        exact save_frame _ _ _ h1
      | some rec =>
        cases hrl : reloadTxns rec.transactions with
        | none => rw [init_of_baddate name b c net fs1 rec hc hlk hrl]
        | some txns =>
          rw [init_of_stored name b c net fs1 rec txns hc hlk hrl]
          exact save_frame _ _ _ h1
  · exact save_frame _ _ _ h2

theorem claim_C9_witness :
    lookupStore (Account.load_data
        (Account.init "alice" 500 "USD" .failure
          (.valid [("bob", ⟨7, "USD", []⟩)])).2) "bob" =
        lookupStore (Account.load_data
          (.valid [("bob", ⟨7, "USD", []⟩)])) "bob" ∧
      lookupStore (Account.load_data
          ((⟨"alice", 500, "USD", []⟩ : Account).add_transaction "coffee" 4
            ⟨2024, 1, 1⟩ (.valid [("bob", ⟨7, "USD", []⟩),
              ("alice", ⟨500, "USD", []⟩)])).2) "bob" =
        lookupStore (Account.load_data (.valid [("bob", ⟨7, "USD", []⟩),
          ("alice", ⟨500, "USD", []⟩)])) "bob" :=
  claim_C9_frame "bob" "alice" 500 "USD" .failure
    (.valid [("bob", ⟨7, "USD", []⟩)]) ⟨"alice", 500, "USD", []⟩ "coffee" 4
    ⟨2024, 1, 1⟩ (.valid [("bob", ⟨7, "USD", []⟩), ("alice", ⟨500, "USD", []⟩)])
    (by decide) (by decide)

end Finance
